import Mathlib

/-!
Verification of the nats-graphql mediation layer.

Shallow embedding of:
* `middleware/auth.go` — the Bearer-token authorization middleware;
* `cmd/server/main.go` — the `/healthz` and `/readyz` HTTP handlers;
* the Range Query Engine, Publish Gate, KV Bridge and Live Subscription
  Bridge of the GraphQL resolvers.  The resolver file
  (`graph/schema.resolvers.go`) is not part of the provided sources, so
  those components are modelled from the specification's algorithm
  descriptions and the repository's README and end-to-end tests.
-/

namespace NatsGraphql

/-! ## Auth middleware (`middleware/auth.go`) -/

/-- Go `strings.TrimPrefix s pre`: `s` without the provided leading
string `pre`; if `s` does not start with `pre`, `s` is returned
unchanged. -/
def trimLeading (s pre : String) : String :=
  if pre.isPrefixOf s then s.drop pre.length else s

/-- Outcome of the Auth middleware on one request: either the request is
forwarded to the wrapped handler, or it is rejected with an HTTP status
and a list of error messages (the source serializes the messages as a
JSON body of the shape `\x7b"errors":[\x7b"message": ...\x7d]\x7d`). -/
inductive AuthResult where
  | forward
  | reject (status : Nat) (errors : List String)
  deriving DecidableEq, Repr

/-- The message the middleware writes in the 401 response body. -/
def unauthorizedMessage : String :=
  "Unauthorized: invalid or missing Bearer token"

/-- `middleware.Auth`: `token` is the value of `AUTH_TOKEN` at server
start (`""` when unset).  When `token` is empty every request is
forwarded before the Authorization header is read; otherwise the header
value, with a leading `"Bearer "` trimmed, must equal the token. -/
def Auth (token header : String) : AuthResult :=
  if token = "" then .forward
  else
    let value := trimLeading header "Bearer "
    if value ≠ token then .reject 401 [unauthorizedMessage]
    else .forward

/-! ## Health handlers (`cmd/server/main.go`) -/

/-- An HTTP response as (status code, body). -/
structure HttpResponse where
  status : Nat
  body : String
  deriving DecidableEq, Repr

/-- The `/healthz` handler: unconditionally writes 200 `ok`. -/
def healthzHandler : HttpResponse := ⟨200, "ok"⟩

/-- The `/readyz` handler: 503 `NATS disconnected` when the NATS
connection is down, else 200 `ok`.  `connected` is `nc.IsConnected()`. -/
def readyzHandler (connected : Bool) : HttpResponse :=
  if !connected then ⟨503, "NATS disconnected"⟩ else ⟨200, "ok"⟩

/-- An HTTP status counts as success when it is in the 2xx range. -/
def is2xx (status : Nat) : Prop := 200 ≤ status ∧ status < 300

instance (status : Nat) : Decidable (is2xx status) := by
  unfold is2xx; infer_instance

/-! ## External-engine data model and Range Query Engine -/

/-- One record of the external append-only log (a JetStream message):
engine-assigned monotonic sequence, subject, payload bytes and publish
timestamp. -/
structure LogEntry where
  sequence : Nat
  subject : String
  payload : List Nat
  publishedAt : Nat
  deriving DecidableEq, Repr

/-- The closed error-kind taxonomy of the mediation layer. -/
inductive DomainError where
  | validationError
  | notFound
  | payloadTooLarge
  | noMatchingLog
  | engineUnavailable
  deriving DecidableEq, Repr

/-- NATS token matching on already-split subjects: a literal token
matches itself, `*` matches exactly one token and a trailing `>`
matches one or more remaining tokens. -/
def tokensMatch : List String → List String → Bool
  | [], [] => true
  | [">"], _ :: _ => true
  | p :: ps, s :: ss => (p = "*" || p = s) && tokensMatch ps ss
  | _, _ => false

/-- Subject filter match: exact-or-pattern match of a NATS subject
pattern against a concrete subject, token-wise on `.`-separated
tokens. -/
def subjectMatches (pat subj : String) : Bool :=
  tokensMatch (pat.splitOn ".") (subj.splitOn ".")

/-- A historical read request (the `streamMessages` arguments):
log name, optional start cursor (sequence or time), optional end time,
optional subject filter and the result cap `limit` (the `last`
argument, default 10, hard max 100). -/
structure RangeQuery where
  logName : String
  startSeq : Option Nat
  startTime : Option Nat
  endTime : Option Nat
  subjectFilter : Option String
  limit : Nat
  deriving DecidableEq, Repr

/-- Engine state for the log side: named logs, each an ordered list of
entries. -/
abbrev LogState := List (String × List LogEntry)

/-- Look up a log by name (first match). -/
def lookupLog (st : LogState) (name : String) : Option (List LogEntry) :=
  (st.find? (fun p => p.1 = name)).map (·.2)

/-- Modelled from the spec: step 2 of the Range Query Engine algorithm
(`graph/schema.resolvers.go` is absent from the sources).  Resolve the
start position: if `startSeq` is given begin at the first entry with
that sequence or later; else if `startTime` is given begin at the first
entry with `publishedAt >= startTime`; else begin `limit` entries back
from the log's current tail. -/
def resolveStart (entries : List LogEntry) (q : RangeQuery) : List LogEntry :=
  match q.startSeq with
  | some s => entries.dropWhile (fun e => e.sequence < s)
  | none =>
    match q.startTime with
    | some t => entries.dropWhile (fun e => e.publishedAt < t)
    | none => entries.drop (entries.length - q.limit)

/-- Modelled from the spec: step 3 of the Range Query Engine algorithm.
Stream entries forward from the resolved start, applying the subject
filter and the end time (stop once exceeded) as the read proceeds,
until `limit` entries are collected or the log is exhausted. -/
def collectEntries : List LogEntry → Option String → Option Nat → Nat → List LogEntry
  | _, _, _, 0 => []
  | [], _, _, _ + 1 => []
  | e :: rest, filt, endT, n + 1 =>
    if (match endT with | some t => decide (t < e.publishedAt) | none => false) then []
    else if (match filt with | some p => subjectMatches p e.subject | none => true) then
      e :: collectEntries rest filt endT n
    else
      collectEntries rest filt endT (n + 1)

/-- Modelled from the spec: the Range Query Engine (`readRange`, the
`streamMessages` resolver, absent from the sources).  Validate
`limit` against `[1,100]` before contacting the engine; a log that
does not exist is `NotFound`; otherwise resolve the start position and
scan forward, bounded by `limit`. -/
def readRange (st : LogState) (q : RangeQuery) : Except DomainError (List LogEntry) :=
  if q.limit < 1 ∨ 100 < q.limit then .error .validationError
  else
    match lookupLog st q.logName with
    | none => .error .notFound
    | some entries =>
      .ok (collectEntries (resolveStart entries q) q.subjectFilter q.endTime q.limit)

/-- Entries of a log are in non-decreasing sequence order. -/
def seqOrdered (entries : List LogEntry) : Prop :=
  entries.Pairwise (fun a b => a.sequence ≤ b.sequence)

/-! ## Publish Gate -/

/-- One MiB, the publish payload cap. -/
def MiB : Nat := 1024 * 1024

/-- A named log on the publish side: the subject patterns it accepts,
its entries, and the engine-maintained tail sequence. -/
structure Stream where
  subjects : List String
  entries : List LogEntry
  lastSeq : Nat
  deriving Repr

/-- Engine state for the publish side. -/
abbrev PublishState := List (String × Stream)

/-- Whether a log is configured to accept the given subject. -/
def streamAccepts (s : Stream) (subject : String) : Bool :=
  s.subjects.any (fun pat => subjectMatches pat subject)

/-- Tail sequence of a named log, when it exists. -/
def tailSeq (st : PublishState) (name : String) : Option Nat :=
  (st.find? (fun p => p.1 = name)).map (fun p => p.2.lastSeq)

/-- Modelled from the spec: the Publish Gate (the `publish` resolver,
absent from the sources).  Payloads exceeding 1 MiB are rejected with
`PayloadTooLarge` before any engine call; with no log configured for
the subject the engine's rejection surfaces as `NoMatchingLog`; on
success the accepting log appends the entry at the next sequence and
the pair (log name, assigned sequence) is returned.  The first
component of the result is the engine state afterwards. -/
def publish (st : PublishState) (subject : String) (payload : List Nat) (now : Nat) :
    PublishState × Except DomainError (String × Nat) :=
  if MiB < payload.length then (st, .error .payloadTooLarge)
  else
    match st.find? (fun p => streamAccepts p.2 subject) with
    | none => (st, .error .noMatchingLog)
    | some (name, s) =>
      let seq := s.lastSeq + 1
      (st.map (fun p =>
          if p.1 = name then
            (p.1, ⟨p.2.subjects, p.2.entries ++ [⟨seq, subject, payload, now⟩], seq⟩)
          else p),
       .ok (name, seq))

/-! ## KV Bridge -/

/-- A revisioned KV record: key, value bytes, engine-assigned revision,
creation timestamp and the tombstone flag set by deletes. -/
structure KVEntry where
  key : String
  value : List Nat
  revision : Nat
  createdAt : Nat
  tombstoned : Bool
  deriving DecidableEq, Repr

/-- A bucket of the external KV store: its write history in engine
order plus the engine-maintained last assigned revision. -/
structure Bucket where
  lastRev : Nat
  history : List KVEntry
  deriving DecidableEq, Repr

/-- The latest write recorded for a key, tombstone or not. -/
def latestWrite (h : List KVEntry) (key : String) : Option KVEntry :=
  (h.filter (fun e => e.key = key)).getLast?

/-- Modelled from the spec: KV Bridge `put` (the `kvPut` resolver,
absent from the sources) — always succeeds, appending a write that
consumes the next revision and carries a server-assigned creation
timestamp; the freshly written entry is returned. -/
def kvPut (b : Bucket) (key : String) (v : List Nat) (now : Nat) : Bucket × KVEntry :=
  let e : KVEntry := ⟨key, v, b.lastRev + 1, now, false⟩
  (⟨b.lastRev + 1, b.history ++ [e]⟩, e)

/-- Modelled from the spec: KV Bridge `delete` (the `kvDelete`
resolver, absent from the sources) — writes a tombstone, which still
consumes a revision, and reports success. -/
def kvDelete (b : Bucket) (key : String) (now : Nat) : Bucket × Bool :=
  let e : KVEntry := ⟨key, [], b.lastRev + 1, now, true⟩
  (⟨b.lastRev + 1, b.history ++ [e]⟩, true)

/-- Modelled from the spec: KV Bridge `get` (the `kvGet` resolver,
absent from the sources) — the latest write for the key when it is not
a tombstone; a missing or tombstoned key gives the absent result. -/
def kvGet (b : Bucket) (key : String) : Option KVEntry :=
  match latestWrite b.history key with
  | none => none
  | some e => if e.tombstoned then none else some e

/-- Engine state for the KV side: named buckets. -/
abbrev KVState := List (String × Bucket)

/-- Look up a bucket by name (first match). -/
def lookupBucket (st : KVState) (name : String) : Option Bucket :=
  (st.find? (fun p => p.1 = name)).map (·.2)

/-- Replace the named bucket's contents. -/
def updateBucket (st : KVState) (name : String) (b : Bucket) : KVState :=
  st.map (fun p => if p.1 = name then (p.1, b) else p)

/-- Modelled from the spec: `get(bucket, key)` against the engine; an
operation against a non-existent bucket fails with `NotFound`. -/
def kvGetOp (st : KVState) (bucket key : String) : Except DomainError (Option KVEntry) :=
  match lookupBucket st bucket with
  | none => .error .notFound
  | some b => .ok (kvGet b key)

/-- Modelled from the spec: `delete(bucket, key)` against the engine;
on a non-existent bucket it fails with `NotFound` and leaves the state
unchanged.  The first component is the engine state afterwards. -/
def kvDeleteOp (st : KVState) (bucket key : String) (now : Nat) :
    KVState × Except DomainError Bool :=
  match lookupBucket st bucket with
  | none => (st, .error .notFound)
  | some b =>
    let r := kvDelete b key now
    (updateBucket st bucket r.1, .ok r.2)

/-! ## Live Subscription Bridge -/

/-- An ephemeral per-client cursor: `pos` is the last-delivered
sequence (initially the log's tail at creation for "now", or a
caller-supplied resume sequence) and `filt` the optional subject
filter. -/
structure Cursor where
  pos : Nat
  filt : Option String
  deriving Repr

/-- Modelled from the spec: cursor creation at "now" — the cursor is
positioned at the log's tail sequence at subscription time, so only
later entries are beyond it. -/
def subscribeNow (tailAtCreation : Nat) (filt : Option String) : Cursor :=
  ⟨tailAtCreation, filt⟩

/-- Whether an arriving entry matches the cursor's subject filter. -/
def cursorMatches (c : Cursor) (e : LogEntry) : Bool :=
  match c.filt with
  | some p => subjectMatches p e.subject
  | none => true

/-- Modelled from the spec: the `Streaming` state of the Live
Subscription Bridge (the `streamSubscribe` resolver, absent from the
sources), as the sequence the bridge delivers over a list of arriving
entries: an arrival is delivered exactly when it matches the filter
and lies beyond the cursor position, and each delivery advances the
position to the delivered sequence. -/
def runSub (c : Cursor) : List LogEntry → List LogEntry
  | [] => []
  | e :: es =>
    if c.pos < e.sequence ∧ cursorMatches c e then
      e :: runSub ⟨e.sequence, c.filt⟩ es
    else
      runSub c es

end NatsGraphql

open NatsGraphql

/-! ## Claims about the auth middleware and health handlers -/

/-- C10: with `AUTH_TOKEN` unset or empty the middleware forwards every
request without inspecting the Authorization header, so any two requests
that differ only in that header receive the identical decision. -/
theorem auth_disabled_uniform :
    (∀ header : String, Auth "" header = AuthResult.forward) ∧
    (∀ h₁ h₂ : String, Auth "" h₁ = Auth "" h₂) := by
  constructor
  · intro header
    simp [Auth]
  · intro h₁ h₂
    simp [Auth]

/-- C9: with `AUTH_TOKEN` set to a non-empty token, a request is
forwarded iff its Authorization header, after removal of a leading
`"Bearer "` when present, equals the token exactly; hence a header that
is the bare token (carrying no `"Bearer "` prefix) is accepted; every
rejected request gets status 401 with the errors list containing one
message object. -/
theorem auth_enabled_decision (token header : String) (htok : token ≠ "") :
    (Auth token header = AuthResult.forward ↔ trimLeading header "Bearer " = token) ∧
    (header = token → ¬ ("Bearer ".isPrefixOf header) → Auth token header = AuthResult.forward) ∧
    (Auth token header ≠ AuthResult.forward →
      Auth token header = AuthResult.reject 401 [unauthorizedMessage]) := by
  refine ⟨?_, ?_, ?_⟩
  · unfold Auth
    simp only [if_neg htok]
    by_cases h : trimLeading header "Bearer " = token
    · simp [h]
    · simp [h]
  · intro hbare hnopre
    unfold Auth
    simp only [if_neg htok]
    have : trimLeading header "Bearer " = token := by
      unfold trimLeading
      rw [if_neg hnopre]
      exact hbare
    simp [this]
  · intro hrej
    unfold Auth at hrej ⊢
    simp only [if_neg htok] at hrej ⊢
    by_cases h : trimLeading header "Bearer " = token
    · exfalso; apply hrej; simp [h]
    · simp [h]

/-- Witness for C9 at token `secret`: the bare header `secret` is
forwarded, and the header `wrong` is rejected with a 401 envelope. -/
theorem auth_enabled_decision_witness :
    Auth "secret" "secret" = AuthResult.forward ∧
    Auth "secret" "wrong" = AuthResult.reject 401 [unauthorizedMessage] := by
  have h := auth_enabled_decision "secret" "secret" (by decide)
  have h₂ := auth_enabled_decision "secret" "wrong" (by decide)
  refine ⟨?_, ?_⟩
  · exact h.2.1 rfl (by decide)
  · exact h₂.2.2 (by decide)

/-! ## Claims about the Range Query Engine -/

/-- Helper: the forward scan collects at most `n` entries. -/
theorem collectEntries_length_le (l : List LogEntry) (filt : Option String)
    (endT : Option Nat) (n : Nat) : (collectEntries l filt endT n).length ≤ n := by
  induction l generalizing n with
  | nil => cases n <;> simp [collectEntries]
  | cons e rest ih =>
    cases n with
    | zero => simp [collectEntries]
    | succ m =>
      unfold collectEntries
      split
      · simp
      · split
        · simpa using Nat.succ_le_succ (ih m)
        · exact ih (m + 1)

/-- Helper: the forward scan returns a sublist of its input. -/
theorem collectEntries_sublist (l : List LogEntry) (filt : Option String)
    (endT : Option Nat) (n : Nat) : List.Sublist (collectEntries l filt endT n) l := by
  induction l generalizing n with
  | nil => cases n <;> simp [collectEntries]
  | cons e rest ih =>
    cases n with
    | zero => simp [collectEntries]
    | succ m =>
      unfold collectEntries
      split
      · exact List.nil_sublist _
      · split
        · exact List.Sublist.cons₂ e (ih m)
        · exact List.Sublist.cons e (ih (m + 1))

/-- Helper: with no filter and no end time, a scan over at most `n`
entries returns them all. -/
theorem collectEntries_no_filter (l : List LogEntry) (n : Nat) (h : l.length ≤ n) :
    collectEntries l none none n = l := by
  induction l generalizing n with
  | nil => cases n <;> simp [collectEntries]
  | cons e rest ih =>
    cases n with
    | zero => simp at h
    | succ m =>
      simp only [collectEntries]
      simp only [List.length_cons] at h
      rw [ih m (Nat.le_of_succ_le_succ h)]
      simp

/-- Helper: the resolved start is a sublist (in fact a suffix) of the
log's entries. -/
theorem resolveStart_sublist (entries : List LogEntry) (q : RangeQuery) :
    List.Sublist (resolveStart entries q) entries := by
  unfold resolveStart
  split
  · exact (List.dropWhile_suffix _).sublist
  · split
    · exact (List.dropWhile_suffix _).sublist
    · exact List.drop_sublist _ _

/-- Helper: a successful log lookup yields the entry list of a member
of the state. -/
theorem lookupLog_mem (st : LogState) (name : String) (entries : List LogEntry)
    (h : lookupLog st name = some entries) : ∃ p ∈ st, p.2 = entries := by
  unfold lookupLog at h
  cases hf : st.find? (fun p => p.1 = name) with
  | none => rw [hf] at h; simp at h
  | some p =>
    rw [hf] at h
    simp at h
    exact ⟨p, List.mem_of_find?_eq_some hf, h⟩

/-- C1: a `streamMessages` request whose `last` argument lies outside
`[1,100]` fails with `ValidationError` on every engine state — the
result does not depend on any log, so no engine call is made, and the
limit is never silently clamped into range. -/
theorem readRange_invalid_limit (q : RangeQuery)
    (h : q.limit < 1 ∨ 100 < q.limit) :
    ∀ st : LogState, readRange st q = .error .validationError := by
  intro st
  unfold readRange
  rw [if_pos h]

/-- Witness for C1 at `last = 0` and `last = 101`, on two different
engine states. -/
theorem readRange_invalid_limit_witness :
    readRange [("s", [⟨1, "s.a", [], 5⟩])] ⟨"s", none, none, none, none, 0⟩ =
      .error .validationError ∧
    readRange [] ⟨"s", none, none, none, none, 101⟩ = .error .validationError :=
  ⟨readRange_invalid_limit _ (by decide) _, readRange_invalid_limit _ (by decide) _⟩

/-- C2: a `streamMessages` request with a valid limit and neither
`startSeq` nor `startTime` (and no other filters) resolves its start
`limit` entries back from the log's tail: the result is the log's last
`limit` entries, still oldest first. -/
theorem readRange_default_last_n (st : LogState) (q : RangeQuery)
    (entries : List LogEntry)
    (hseq : q.startSeq = none) (htime : q.startTime = none)
    (hend : q.endTime = none) (hfilt : q.subjectFilter = none)
    (hlim₁ : 1 ≤ q.limit) (hlim₂ : q.limit ≤ 100)
    (hlook : lookupLog st q.logName = some entries) :
    readRange st q = .ok (entries.drop (entries.length - q.limit)) := by
  unfold readRange
  rw [if_neg (by omega), hlook]
  unfold resolveStart
  rw [hseq, htime, hend, hfilt]
  show Except.ok (collectEntries (entries.drop (entries.length - q.limit)) none none q.limit) = _
  exact congrArg Except.ok
    (collectEntries_no_filter _ _ (by rw [List.length_drop]; omega))

/-- Witness for C2: a log of 5 entries with `last = 3` returns exactly
the last 3 entries, oldest first. -/
theorem readRange_default_last_n_witness :
    readRange
      [("s", [⟨1, "s.a", [], 1⟩, ⟨2, "s.b", [], 2⟩, ⟨3, "s.c", [], 3⟩,
              ⟨4, "s.d", [], 4⟩, ⟨5, "s.e", [], 5⟩])]
      ⟨"s", none, none, none, none, 3⟩ =
      .ok [⟨3, "s.c", [], 3⟩, ⟨4, "s.d", [], 4⟩, ⟨5, "s.e", [], 5⟩] := by
  have h := readRange_default_last_n
    [("s", [⟨1, "s.a", [], 1⟩, ⟨2, "s.b", [], 2⟩, ⟨3, "s.c", [], 3⟩,
            ⟨4, "s.d", [], 4⟩, ⟨5, "s.e", [], 5⟩])]
    ⟨"s", none, none, none, none, 3⟩
    [⟨1, "s.a", [], 1⟩, ⟨2, "s.b", [], 2⟩, ⟨3, "s.c", [], 3⟩,
     ⟨4, "s.d", [], 4⟩, ⟨5, "s.e", [], 5⟩]
    rfl rfl rfl rfl (by decide) (by decide) (by decide)
  simpa using h

/-- C3: for a valid limit and any engine state whose logs are in
non-decreasing sequence order, a successful `streamMessages` result has
length at most `limit` and is itself in non-decreasing sequence order
(oldest first). -/
theorem readRange_bounded_ordered (st : LogState) (q : RangeQuery)
    (res : List LogEntry)
    (hlim₁ : 1 ≤ q.limit) (hlim₂ : q.limit ≤ 100)
    (hwf : ∀ p ∈ st, seqOrdered p.2)
    (hok : readRange st q = .ok res) :
    res.length ≤ q.limit ∧ seqOrdered res := by
  unfold readRange at hok
  rw [if_neg (by omega)] at hok
  cases hlook : lookupLog st q.logName with
  | none => rw [hlook] at hok; exact absurd hok (by simp)
  | some entries =>
    rw [hlook] at hok
    have hres : res = collectEntries (resolveStart entries q) q.subjectFilter q.endTime q.limit := by
      simpa using hok.symm
    subst hres
    refine ⟨collectEntries_length_le _ _ _ _, ?_⟩
    obtain ⟨p, hp, hpe⟩ := lookupLog_mem st q.logName entries hlook
    have hord : seqOrdered entries := hpe ▸ hwf p hp
    have hsub : List.Sublist (collectEntries (resolveStart entries q) q.subjectFilter q.endTime q.limit) entries :=
      (collectEntries_sublist _ _ _ _).trans (resolveStart_sublist entries q)
    exact hord.sublist hsub

/-- Witness for C3: a filtered read over a 3-entry ordered log returns
at most 2 entries, in order. -/
theorem readRange_bounded_ordered_witness :
    ([⟨1, "s.a", [], 1⟩, ⟨3, "s.b", [], 2⟩] : List LogEntry).length ≤ 2 ∧
    seqOrdered [⟨1, "s.a", [], 1⟩, ⟨3, "s.b", [], 2⟩] := by
  have h := readRange_bounded_ordered
    [("s", [⟨1, "s.a", [], 1⟩, ⟨3, "s.b", [], 2⟩, ⟨4, "s.c", [], 3⟩])]
    ⟨"s", some 1, none, none, none, 2⟩
    [⟨1, "s.a", [], 1⟩, ⟨3, "s.b", [], 2⟩]
    (by decide) (by decide)
    (by
      intro p hp
      simp only [List.mem_singleton] at hp
      subst hp
      unfold seqOrdered
      simp)
    (by rfl)
  exact h

/-- C4: `/healthz` answers 200 on every request while the process is up,
whatever the NATS connection state; `/readyz` answers a non-2xx status
exactly when the NATS connection is down. -/
theorem health_liveness_readiness :
    healthzHandler.status = 200 ∧
    (∀ connected : Bool,
      (¬ is2xx (readyzHandler connected).status ↔ connected = false)) := by
  constructor
  · rfl
  · intro connected
    cases connected <;> simp [readyzHandler, is2xx]

/-! ## Claims about the Publish Gate -/

/-- C5: a `publish` whose payload exceeds 1 MiB fails with
`PayloadTooLarge` and leaves the engine state untouched, so no log's
tail sequence advances — in particular the result does not depend on
any engine call. -/
theorem publish_too_large (st : PublishState) (subject : String)
    (payload : List Nat) (now : Nat) (h : MiB < payload.length) :
    publish st subject payload now = (st, .error .payloadTooLarge) ∧
    ∀ name : String, tailSeq (publish st subject payload now).1 name = tailSeq st name := by
  have heq : publish st subject payload now = (st, .error .payloadTooLarge) := by
    unfold publish
    rw [if_pos h]
  exact ⟨heq, fun name => by rw [heq]⟩

/-- Witness for C5: a payload of `MiB + 1` zero bytes is rejected with
`PayloadTooLarge` on a one-log state and the log's tail stays put. -/
theorem publish_too_large_witness :
    publish [("s", ⟨["s.>"], [], 7⟩)] "s.x" (List.replicate (MiB + 1) 0) 0 =
      ([("s", ⟨["s.>"], [], 7⟩)], .error .payloadTooLarge) ∧
    tailSeq (publish [("s", ⟨["s.>"], [], 7⟩)] "s.x" (List.replicate (MiB + 1) 0) 0).1 "s" =
      some 7 := by
  have h := publish_too_large [("s", ⟨["s.>"], [], 7⟩)] "s.x"
    (List.replicate (MiB + 1) 0) 0 (by simp)
  exact ⟨h.1, by rw [h.2 "s"]; rfl⟩

/-! ## Claims about the KV Bridge -/

/-- C6: a put performed after a delete of the same key yields a
revision strictly greater than every revision previously recorded for
that key, and strictly greater than the revision the delete's
tombstone consumed (which is the bucket's last revision right after
the delete). -/
theorem kv_delete_recreate_monotone (b : Bucket) (key : String)
    (v : List Nat) (t₁ t₂ : Nat)
    (hwf : ∀ e ∈ b.history, e.revision ≤ b.lastRev) :
    (∀ e ∈ b.history, e.key = key →
        e.revision < ((kvPut (kvDelete b key t₁).1 key v t₂).2).revision) ∧
    (kvDelete b key t₁).1.lastRev <
      ((kvPut (kvDelete b key t₁).1 key v t₂).2).revision := by
  constructor
  · intro e he _
    have := hwf e he
    simp only [kvPut, kvDelete]
    omega
  · simp only [kvPut, kvDelete]
    omega

/-- Witness for C6 on a one-entry bucket: the recreate's revision
exceeds both the old entry's revision and the tombstone's. -/
theorem kv_delete_recreate_monotone_witness :
    (∀ e ∈ (⟨1, [⟨"k", [1], 1, 0, false⟩]⟩ : Bucket).history, e.key = "k" →
        e.revision <
          ((kvPut (kvDelete ⟨1, [⟨"k", [1], 1, 0, false⟩]⟩ "k" 5).1 "k" [2] 6).2).revision) ∧
    (kvDelete (⟨1, [⟨"k", [1], 1, 0, false⟩]⟩ : Bucket) "k" 5).1.lastRev <
      ((kvPut (kvDelete (⟨1, [⟨"k", [1], 1, 0, false⟩]⟩ : Bucket) "k" 5).1 "k" [2] 6).2).revision :=
  kv_delete_recreate_monotone ⟨1, [⟨"k", [1], 1, 0, false⟩]⟩ "k" [2] 5 6 (by decide)

/-- Helper: after an update, looking up the updated bucket finds the
new contents (provided the bucket existed). -/
theorem lookupBucket_update (st : KVState) (name : String) (b b' : Bucket)
    (h : lookupBucket st name = some b) :
    lookupBucket (updateBucket st name b') name = some b' := by
  induction st with
  | nil => simp [lookupBucket] at h
  | cons p rest ih =>
    by_cases hp : p.1 = name
    · simp [lookupBucket, updateBucket, List.find?_cons_of_pos, hp]
    · have h' : lookupBucket rest name = some b := by
        simpa [lookupBucket, List.find?_cons_of_neg, hp] using h
      simpa [lookupBucket, updateBucket, List.find?_cons_of_neg, hp] using ih h'

/-- Helper: right after a delete, the latest write for the key is the
tombstone, so a get gives the absent result. -/
theorem kvGet_after_delete (b : Bucket) (key : String) (now : Nat) :
    kvGet (kvDelete b key now).1 key = none := by
  simp [kvGet, kvDelete, latestWrite, List.filter_append]

/-- C7: on an existing bucket, `get` of a key that is missing or whose
latest write is a tombstone returns the absent result (`.ok none`),
not an error; in particular a `delete` followed by a `get` of the same
key yields the absent result. -/
theorem kv_get_absent (st : KVState) (bucket key : String) (b : Bucket) (now : Nat)
    (hb : lookupBucket st bucket = some b) :
    ((latestWrite b.history key = none ∨
        ∃ e, latestWrite b.history key = some e ∧ e.tombstoned = true) →
      kvGetOp st bucket key = .ok none) ∧
    kvGetOp (kvDeleteOp st bucket key now).1 bucket key = .ok none := by
  constructor
  · intro habs
    unfold kvGetOp
    rw [hb]
    rcases habs with hnone | ⟨e, he, ht⟩
    · simp [kvGet, hnone]
    · simp [kvGet, he, ht]
  · unfold kvDeleteOp
    rw [hb]
    unfold kvGetOp
    rw [lookupBucket_update st bucket b (kvDelete b key now).1 hb]
    show Except.ok (kvGet (kvDelete b key now).1 key) = Except.ok none
    rw [kvGet_after_delete]

/-- Witness for C7 on a one-bucket state: a missing key reads as
absent, and delete-then-get reads as absent. -/
theorem kv_get_absent_witness :
    kvGetOp [("B", ⟨1, [⟨"k", [1], 1, 0, false⟩]⟩)] "B" "missing" = .ok none ∧
    kvGetOp (kvDeleteOp [("B", ⟨1, [⟨"k", [1], 1, 0, false⟩]⟩)] "B" "k" 9).1 "B" "k" =
      .ok none := by
  have h := kv_get_absent [("B", ⟨1, [⟨"k", [1], 1, 0, false⟩]⟩)] "B" "missing"
    ⟨1, [⟨"k", [1], 1, 0, false⟩]⟩ 9 (by rfl)
  have h₂ := kv_get_absent [("B", ⟨1, [⟨"k", [1], 1, 0, false⟩]⟩)] "B" "k"
    ⟨1, [⟨"k", [1], 1, 0, false⟩]⟩ 9 (by rfl)
  exact ⟨h.1 (Or.inl (by rfl)), h₂.2⟩

/-! ## Claims about the Live Subscription Bridge -/

/-- Helper: every delivered entry lies strictly beyond the cursor's
starting position, and the delivered sequences strictly increase. -/
theorem runSub_beyond_pos (c : Cursor) (arrivals : List LogEntry) :
    (∀ e ∈ runSub c arrivals, c.pos < e.sequence) ∧
    List.Pairwise (fun a b => a.sequence < b.sequence) (runSub c arrivals) := by
  induction arrivals generalizing c with
  | nil => simp [runSub]
  | cons e es ih =>
    unfold runSub
    split
    · rename_i hcond
      obtain ⟨ih₁, ih₂⟩ := ih ⟨e.sequence, c.filt⟩
      refine ⟨?_, ?_⟩
      · intro x hx
        rcases List.mem_cons.mp hx with hx | hx
        · subst hx; exact hcond.1
        · exact lt_trans hcond.1 (ih₁ x hx)
      · exact List.Pairwise.cons (fun x hx => ih₁ x hx) ih₂
    · exact ih c

/-- C8: a live subscription whose cursor was created at "now" (no
resume sequence) never delivers an entry published before cursor
creation — every delivered sequence is strictly beyond the tail at
creation — and delivers no entry twice: the delivered sequences are
strictly increasing, and sequences are unique per log. -/
theorem streamSubscribe_no_replay_no_duplicate (tailAtCreation : Nat)
    (filt : Option String) (arrivals : List LogEntry) :
    (∀ e ∈ runSub (subscribeNow tailAtCreation filt) arrivals,
        tailAtCreation < e.sequence) ∧
    List.Pairwise (fun a b => a.sequence < b.sequence)
      (runSub (subscribeNow tailAtCreation filt) arrivals) :=
  runSub_beyond_pos (subscribeNow tailAtCreation filt) arrivals
